import Mathlib

/-
  Verification development for migrate_frontegg_accounts.py.

  Shallow embedding of the migration script's core logic:
  the rate-limited request loop, cursor pagination, tenant/category/permission
  reconciliation, role-id translation, the user merge, the CSV credential merge
  and the stage orchestrator.  Remote interactions are modelled by explicit
  environments (lists of responses, Except-valued fetch results); Python dicts
  are modelled as association lists with last-binding-wins lookup, and Python
  truthiness of strings (empty string is falsy) is embedded explicitly where
  the script branches on it.
-/

set_option maxHeartbeats 1000000

/-- Errors surfaced by remote calls or file reads (requests exceptions,
raise-for-status errors, missing files). -/
inductive Err where
  | remote (status : Nat) (body : String)
  | authError
  | fileNotFound
  deriving DecidableEq, Repr

/-- An HTTP response as seen by make_request_with_rate_limiting: a status code
and the optional Retry-After header. -/
structure Response where
  status : Nat
  retryAfter : Option Nat
  deriving DecidableEq, Repr

/-- Python-level failures of the request loop: raise_for_status errors are
requests.HTTPError; the 429 branch evaluates time.sleep although the time
module is never imported, which raises NameError; noResponse models an
exhausted response environment (never reached by the real loop since it
returns or raises on the first response). -/
inductive PyError where
  | nameError
  | httpError (status : Nat)
  | noResponse
  deriving DecidableEq, Repr

/-- Embedding of make_request_with_rate_limiting (lines 90-104), run against
the sequence of responses the server would give to the successive attempts.
The loop body returns the response when raise_for_status passes (status below
400), raises requests.HTTPError for a status of 400 or more other than 429,
and on 429 computes retry_after and then evaluates time.sleep(retry_after):
the name time is unbound in the script (the time module is never imported),
so this branch raises NameError, which the except clause (which only catches
requests.exceptions.RequestException) does not intercept.  Hence every branch
of the loop body exits the loop on the first response. -/
def make_request_with_rate_limiting : List Response → Except PyError Response
  | [] => .error .noResponse
  | r :: _ =>
    if r.status = 429 then
      .error .nameError
    else if 400 ≤ r.status then
      .error (.httpError r.status)
    else
      .ok r

/-- Python dict lookup over an association list built by successive insertions:
the last binding of a key wins (dict overwrite semantics); absent keys give
none. -/
def pyDictGet {α : Type} (m : List (String × α)) (k : String) : Option α :=
  ((m.filter (fun p => decide (p.1 = k))).getLast?).map Prod.snd

/-- The keys of a Python dict built from a list of insertions, in first
insertion order, without duplicates. -/
def pyDictKeys {α : Type} (m : List (String × α)) : List String :=
  m.foldl (fun acc p => if p.1 ∈ acc then acc else acc ++ [p.1]) []

/-- Iteration over the items of a Python dict built from a list of insertions:
keys in first insertion order, each with its last-written value. -/
def pyDictItems {α : Type} (m : List (String × α)) : List (String × α) :=
  (pyDictKeys m).filterMap (fun k => (pyDictGet m k).map (fun v => (k, v)))

/-- Embedding of translate_role_ids (lines 264-272) up to the final json.dumps
serialization: returns the translated list together with the list of ids for
which the diagnostic branch ran.  The script tests the looked-up value for
truthiness, so a role id mapped to the empty string is also dropped with a
diagnostic. -/
def translate_role_ids (m : List (String × String)) : List String → List String × List String
  | [] => ([], [])
  | i :: rest =>
    let r := translate_role_ids m rest
    match pyDictGet m i with
    | some v => if v = "" then (r.1, i :: r.2) else (v :: r.1, r.2)
    | none => (r.1, i :: r.2)

/-- One page of a paginated collection response: the items list and the
optional next link from the response body. -/
structure Page where
  items : List String
  next : Option String
  deriving DecidableEq, Repr

/-- Embedding of get_all_paginated_items (lines 106-123) against a server
modelled as a partial map from URL to page, with fuel bounding the number of
requests (the Python loop runs unboundedly; the theorems exhibit sufficient
fuel).  Returns the accumulated items together with the request log: the URL
and query parameters of every request issued, in order.  Following a next
link concatenates it to the base URL and clears the query parameters; an
absent or empty next link (Python truthiness) ends the loop. -/
def get_all_paginated_items (server : String → Option Page) (base : String) :
    Nat → String → List (String × String) →
    Option (List String × List (String × List (String × String)))
  | 0, _, _ => none
  | fuel + 1, url, params =>
    match server url with
    | none => none
    | some pg =>
      match pg.next with
      | some l =>
        if l = "" then some (pg.items, [(url, params)])
        else
          match get_all_paginated_items server base fuel (base ++ l) [] with
          | none => none
          | some (items, reqs) => some (pg.items ++ items, (url, params) :: reqs)
      | none => some (pg.items, [(url, params)])

/-- A server behaviour serving a finite chain of pages: each listed URL
resolves to its page, every page but the last carries a non-empty next link
that resolves (prefixed by the base URL) to the next listed URL, and the last
page has no next link. -/
def isChain (server : String → Option Page) (base : String) : List (String × Page) → Prop
  | [] => True
  | [(u, p)] => server u = some p ∧ p.next = none
  | (u, p) :: (u', p') :: rest =>
    server u = some p ∧ (∃ l, p.next = some l ∧ l ≠ "" ∧ u' = base ++ l) ∧
      isChain server base ((u', p') :: rest)

/-- A concrete two-page server used to instantiate the pagination theorem. -/
def demoServer : String → Option Page := fun u =>
  if u = "base/items" then some ⟨["a", "b"], some "/next1"⟩
  else if u = "base/next1" then some ⟨["c"], none⟩
  else none

/-- A tenant record: id (reused verbatim across accounts), display name and
optional raw metadata blob. -/
structure Tenant where
  tenantId : String
  name : String
  metadata : Option String
  deriving DecidableEq, Repr

/-- The tenant object created at the destination by create_tenant
(lines 133-146): only tenantId and name are posted; metadata is set by a
separate later call. -/
def createdTenant (t : Tenant) : Tenant := ⟨t.tenantId, t.name, none⟩

/-- One iteration of the bulk_create_tenants loop over one source tenant:
skip when the tenantId is in the pre-fetched set of existing ids, otherwise
issue a create call (counted), which appends the tenant to the destination
collection when the remote call succeeds (create_tenant catches failures
per item). -/
def bulkStep (createOk : String → Bool) (existing : List String)
    (acc : List Tenant × Nat) (t : Tenant) : List Tenant × Nat :=
  if t.tenantId ∈ existing then acc
  else ((if createOk t.tenantId then acc.1 ++ [createdTenant t] else acc.1), acc.2 + 1)

/-- Embedding of bulk_create_tenants (lines 159-167): fetches the destination
collection once, builds the set of existing tenant ids, then iterates source
tenants, skipping those whose id exists and creating the rest.  Returns the
resulting destination collection and the number of create calls issued;
createOk gives each create call's remote outcome. -/
def bulk_create_tenants (createOk : String → Bool) (destState : List Tenant)
    (src : List Tenant) : List Tenant × Nat :=
  src.foldl (bulkStep createOk (destState.map (fun t => t.tenantId))) (destState, 0)

/-- A permission category: account-local id, name (the cross-account natural
key) and optional description. -/
structure Category where
  id : String
  name : String
  description : Option String
  deriving DecidableEq, Repr

/-- Embedding of create_categories (lines 360-374): posts every source
category unconditionally (there is no existence check against the
destination), appending a created category per call; the server-assigned id
is not observable to the loop and is modelled as the empty string.  Returns
the destination collection and the number of create calls issued. -/
def create_categories (destState : List Category) (src : List Category) :
    List Category × Nat :=
  src.foldl (fun acc c => (acc.1 ++ [⟨"", c.name, some (c.description.getD "")⟩], acc.2 + 1))
    (destState, 0)

/-- A permission: key (cross-account natural key), name, optional
description, account-local category reference (None models a JSON null), and
optional assignment type. -/
structure Permission where
  key : String
  name : String
  description : Option String
  categoryId : Option String
  assignmentType : Option String
  deriving DecidableEq, Repr

/-- One element of the bulk create payload built by create_permissions
(lines 329-345): name, description defaulted to the empty string, category
id, key, and assignment type defaulted to Admin. -/
structure PermEntry where
  name : String
  description : String
  categoryId : String
  key : String
  assignmentType : String
  deriving DecidableEq, Repr

def mkPermEntry (p : Permission) (cid : String) : PermEntry :=
  ⟨p.name, p.description.getD "", cid, p.key, p.assignmentType.getD "Admin"⟩

/-- Embedding of the category_mapping dict comprehension in migrate_settings
(lines 385-390): maps each source category id to the id of the first
destination category with the same name, or None when no destination
category has that name. -/
def category_mapping (srcCats destCats : List Category) : List (String × Option String) :=
  srcCats.map (fun s =>
    (s.id, (destCats.find? (fun d => decide (d.name = s.name))).map (fun d => d.id)))

/-- The in-place rewrite of one permission's categoryId in migrate_settings
(line 394): a dict .get through the category mapping; a missing key or a
stored None both yield None. -/
def rewriteCategoryId (mapping : List (String × Option String)) (p : Permission) : Permission :=
  Permission.mk p.key p.name p.description
    (match p.categoryId with
     | none => none
     | some c => (pyDictGet mapping c).join)
    p.assignmentType

/-- Embedding of the payload filter of create_permissions (lines 333-339):
one entry per permission whose categoryId is truthy (not None and not the
empty string). -/
def create_permissions_payload (perms : List Permission) : List PermEntry :=
  perms.filterMap (fun p =>
    match p.categoryId with
    | some cid => if cid = "" then none else some (mkPermEntry p cid)
    | none => none)

/-- Embedding of the permission part of migrate_settings (lines 376-398):
every source permission's categoryId is rewritten through the category
mapping, then the bulk create payload keeps the permissions whose rewritten
categoryId is truthy. -/
def migrate_settings_payload (srcCats destCats : List Category)
    (perms : List Permission) : List PermEntry :=
  create_permissions_payload
    (perms.map (rewriteCategoryId (category_mapping srcCats destCats)))

/-- Embedding of Python str.lower on the email column: lowercase every
character. -/
def lowerString (s : String) : String := String.mk (s.data.map Char.toLower)

/-- A user as relevant to the merge: account-local id, email and tenantId. -/
structure User where
  id : String
  email : String
  tenantId : String
  deriving DecidableEq, Repr

/-- One row of the merged user table of migrate_users: the join columns, the
source-side user id, and the destination-side user id (none models the NaN a
left merge puts in unmatched rows). -/
structure MergedRow where
  email : String
  tenantId : String
  idSource : String
  idDest : Option String
  deriving DecidableEq, Repr

/-- The email normalization applied to both user tables before the merge. -/
def lowerUser (u : User) : User := ⟨u.id, lowerString u.email, u.tenantId⟩

/-- The rows contributed to the left merge by one source user, given the
already-normalized destination table: one row per destination user with equal
(email, tenantId), or a single row with an absent destination id when there
is no match (pandas how=left semantics, destination matches in destination
order). -/
def mergeRowsFor (d : List User) (u : User) : List MergedRow :=
  let ms := d.filter (fun v => decide ((v.email, v.tenantId) = (u.email, u.tenantId)))
  if ms.isEmpty then [⟨u.email, u.tenantId, u.id, none⟩]
  else ms.map (fun v => ⟨u.email, u.tenantId, u.id, some v.id⟩)

/-- Embedding of the user merge of migrate_users (lines 279-295): lowercase
emails on both sides, then left-merge source users onto destination users on
(email, tenantId), keeping source order. -/
def merge_users (src dst : List User) : List MergedRow :=
  (src.map lowerUser).flatMap (mergeRowsFor (dst.map lowerUser))

/-- Modelled from the spec: the row the join description in the spec assigns
to one source user — the source user's normalized columns, with a destination
id exactly when a destination user matches on (lowercased email, tenantId),
namely the first such destination user's id.  Used to compare merge_users
against the spec's description. -/
def mergeSpecRow (dst : List User) (u : User) : MergedRow :=
  let u2 := lowerUser u
  let d := dst.map lowerUser
  ⟨u2.email, u2.tenantId, u2.id,
    (d.find? (fun v => decide ((v.email, v.tenantId) = (u2.email, u2.tenantId)))).map
      (fun v => v.id)⟩

/-- A role-assignment record fetched from the source account for one user. -/
structure RoleRecord where
  userId : String
  roleIds : List String
  deriving DecidableEq, Repr

/-- One role-assignment request issued by assign_user_roles: the destination
user id interpolated into the URL (none models the NaN of an unmatched user,
which Python renders as the literal string nan), the tenant header, the email
used in logs, and the posted role ids. -/
structure AssignRequest where
  userId : Option String
  tenantId : String
  email : String
  roleIds : List String
  deriving DecidableEq, Repr

/-- The role-id translation applied to each fetched role record before the
role join (line 307-309): the record's roleIds column is replaced by the
translated list. -/
def translateRecord (roleMap : List (String × String)) (r : RoleRecord) : RoleRecord :=
  ⟨r.userId, (translate_role_ids roleMap r.roleIds).1⟩

/-- Embedding of the request-emitting tail of migrate_users plus
assign_user_roles (lines 222-235, 297-313): translate each role record,
inner-join the records onto the merged user table by source user id, and
emit one POST per joined row.  The script's only row filter is
roleIds.notnull(), which holds for every row because translate_role_ids
always produces a value (a JSON string, possibly the empty list), so every
joined row yields a request — including rows whose destination id is absent
and rows whose translated role list is empty. -/
def compute_assignments (srcUsers dstUsers : List User) (records : List RoleRecord)
    (roleMap : List (String × String)) : List AssignRequest :=
  let merged := merge_users srcUsers dstUsers
  let translated := records.map (translateRecord roleMap)
  merged.flatMap (fun m =>
    (translated.filter (fun r => decide (r.userId = m.idSource))).map (fun r =>
      ⟨m.idDest, m.tenantId, m.email, r.roleIds⟩))

/-- A role: account-local id and key (the cross-account natural key). -/
structure Role where
  id : String
  key : String
  deriving DecidableEq, Repr

/-- Embedding of get_roles_mapping (lines 237-248): on success builds the
dict from role key to role id; any fetch error is caught and an empty
mapping is returned. -/
def get_roles_mapping (resp : Except Err (List Role)) : List (String × String) :=
  match resp with
  | .error _ => []
  | .ok roles => roles.map (fun r => (r.key, r.id))

/-- Embedding of get_categories (lines 347-358): any fetch error is caught
and an empty list returned. -/
def get_categories (resp : Except Err (List Category)) : List Category :=
  match resp with
  | .error _ => []
  | .ok l => l

/-- Embedding of get_permissions (lines 316-327): any fetch error is caught
and an empty list returned. -/
def get_permissions (resp : Except Err (List Permission)) : List Permission :=
  match resp with
  | .error _ => []
  | .ok l => l

/-- Embedding of get_role_id_translations (lines 250-262): iterate the source
role dict items; a key found in the destination dict with a truthy id adds
source id to destination id to the translation; otherwise the key is
diagnosed.  Returns the translation map and the diagnosed keys. -/
def get_role_id_translations (srcResp dstResp : Except Err (List Role)) :
    List (String × String) × List String :=
  let dst := get_roles_mapping dstResp
  (pyDictItems (get_roles_mapping srcResp)).foldl (fun acc kp =>
    match pyDictGet dst kp.1 with
    | some d => if d = "" then (acc.1, acc.2 ++ [kp.1]) else (acc.1 ++ [(kp.2, d)], acc.2)
    | none => (acc.1, acc.2 ++ [kp.1])) ([], [])

/-- A row of the user-details CSV, restricted to the columns the merge keys
and carries through. -/
structure UserRow where
  userId : String
  email : String
  deriving DecidableEq, Repr

/-- A row of the password-hashes CSV: user id, parsed creation timestamp and
the hash value. -/
structure HashRow where
  userId : String
  createdAt : Nat
  hash : String
  deriving DecidableEq, Repr

/-- One row of the produced migration CSV: the user columns plus the selected
password hash (none models the NaN of a user with no hash row). -/
structure OutRow where
  userId : String
  email : String
  passwordHash : Option String
  deriving DecidableEq, Repr

/-- The comparison used by sort_values on the createdAt column. -/
def hashLe (a b : HashRow) : Prop := a.createdAt ≤ b.createdAt

instance : DecidableRel hashLe := fun a b => Nat.decLe a.createdAt b.createdAt

instance : IsTotal HashRow hashLe := ⟨fun a b => Nat.le_total a.createdAt b.createdAt⟩

instance : IsTrans HashRow hashLe := ⟨fun _ _ _ hab hbc => Nat.le_trans hab hbc⟩

/-- Embedding of the hash selection of create_migration_csv (line 413):
sort the hash rows by creation timestamp and keep, per user id, the last row
of the sorted frame with that id (groupby tail of one).  The claims proved
about it concern only properties independent of the sorting algorithm
(pandas' default quicksort is not stable; insertionSort here is a correct
sort by the same column). -/
def latest_hash (hashes : List HashRow) (u : String) : Option HashRow :=
  ((List.insertionSort hashLe hashes).filter (fun r => decide (r.userId = u))).getLast?

/-- Embedding of create_migration_csv (lines 400-435) after file reading and
timestamp parsing: left-merge the user rows with the selected latest hash per
user id; a user with no hash row keeps an absent password hash. -/
def create_migration_csv (users : List UserRow) (hashes : List HashRow) : List OutRow :=
  users.map (fun ur =>
    ⟨ur.userId, ur.email, (latest_hash hashes ur.userId).map (fun r => r.hash)⟩)

/-- The five migration stages in the claim's vocabulary: migrate calls
migrate_tenants, create_migration_csv, migrate_settings (categories then
permissions) and migrate_users. -/
inductive Stage where
  | tenants
  | csv
  | categories
  | permissions
  | usersRoles
  deriving DecidableEq, Repr

/-- The environment a migration run executes against: the outcome of every
mandatory fetch or file read (an Except, since these propagate when they
fail), the per-item create outcomes (caught per item by the script), and the
data the remaining stages consume.  Fetches whose errors the script catches
internally (categories, permissions, roles) are still Except-valued; their
stage functions absorb the error as the script does. -/
structure MigEnv where
  srcTenants : Except Err (List Tenant)
  dstTenants : Except Err (List Tenant)
  tenantCreateOk : String → Bool
  csvData : Except Err (List UserRow × List HashRow)
  srcCategories : Except Err (List Category)
  dstCategories : Except Err (List Category)
  srcPermissions : Except Err (List Permission)
  srcUsers : Except Err (List User)
  dstUsers : Except Err (List User)
  roleRecords : List RoleRecord
  srcRoles : Except Err (List Role)
  dstRoles : Except Err (List Role)

/-- Stage 1, migrate_tenants (lines 169-181): the source tenant fetch and the
destination fetch inside bulk_create_tenants are mandatory (no catch), so
their errors propagate; per-tenant create and metadata failures are caught
per item inside create_tenant and set_tenant_metadata. -/
def migrate_tenants_run (env : MigEnv) : Except Err (List Tenant) :=
  match env.srcTenants with
  | .error e => .error e
  | .ok src =>
    match env.dstTenants with
    | .error e => .error e
    | .ok dst => .ok (bulk_create_tenants env.tenantCreateOk dst src).1

/-- Stage 2, create_migration_csv (lines 400-435): a missing input file is
re-raised (the except clause raises), so it propagates. -/
def csv_stage_run (env : MigEnv) : Except Err (List OutRow) :=
  match env.csvData with
  | .error e => .error e
  | .ok d => .ok (create_migration_csv d.1 d.2)

/-- Stage 3, the category half of migrate_settings (lines 376-379): the
source category fetch catches its own errors and yields an empty list, and
create_categories catches per-item errors, so this stage cannot fail at
stage level. -/
def categories_stage_run (env : MigEnv) : Except Err (List Category × Nat) :=
  .ok (create_categories [] (get_categories env.srcCategories))

/-- Stage 4, the permission half of migrate_settings (lines 381-398): all its
fetches catch their own errors (empty collections), and the bulk create
catches its error, so this stage cannot fail at stage level. -/
def permissions_stage_run (env : MigEnv) : Except Err (List PermEntry) :=
  .ok (migrate_settings_payload (get_categories env.srcCategories)
    (get_categories env.dstCategories) (get_permissions env.srcPermissions))

/-- Stage 5, migrate_users (lines 274-314): the two full user fetches are
mandatory (no catch: an error propagates and aborts); role-record fetches are
caught per chunk and the roles fetches are caught inside get_roles_mapping;
per-user assignment failures are caught inside assign_user_roles. -/
def users_roles_stage_run (env : MigEnv) : Except Err (List AssignRequest) :=
  match env.srcUsers with
  | .error e => .error e
  | .ok su =>
    match env.dstUsers with
    | .error e => .error e
    | .ok du =>
      .ok (compute_assignments su du env.roleRecords
        (get_role_id_translations env.srcRoles env.dstRoles).1)

/-- Drop the payload of a stage result, keeping only success or the error. -/
def toUnit {α : Type} (x : Except Err α) : Except Err Unit :=
  match x with
  | .error e => .error e
  | .ok _ => .ok ()

/-- The orchestrated stage list of migrate (lines 437-462), in call order. -/
def stageActions : List (Stage × (MigEnv → Except Err Unit)) :=
  [(.tenants, fun e => toUnit (migrate_tenants_run e)),
   (.csv, fun e => toUnit (csv_stage_run e)),
   (.categories, fun e => toUnit (categories_stage_run e)),
   (.permissions, fun e => toUnit (permissions_stage_run e)),
   (.usersRoles, fun e => toUnit (users_roles_stage_run e))]

/-- Sequential execution of stages: each stage is entered (recorded in the
trace) and run; an error stops the run, so no later stage is entered. -/
def runSeq (env : MigEnv) : List (Stage × (MigEnv → Except Err Unit)) →
    List Stage × Except Err Unit
  | [] => ([], .ok ())
  | (s, f) :: rest =>
    match f env with
    | .error e => ([s], .error e)
    | .ok _ =>
      let r := runSeq env rest
      (s :: r.1, r.2)

/-- Embedding of migrate (lines 437-462): run the five stages in order. -/
def migrate (env : MigEnv) : List Stage × Except Err Unit := runSeq env stageActions

/-- The order the claim states. -/
def stageOrder : List Stage := [.tenants, .csv, .categories, .permissions, .usersRoles]

/-- An Except value that succeeded. -/
def exOk {α : Type} (x : Except Err α) : Prop := ∃ a, x = Except.ok a

/-- A concrete environment where every mandatory fetch succeeds but every
per-item tenant create fails. -/
def happyEnv : MigEnv :=
  ⟨.ok [⟨"t1", "Acme", none⟩], .ok [], (fun _ => false), .ok ([], []), .ok [], .ok [],
   .ok [], .ok [], .ok [], [], .ok [], .ok []⟩

theorem filter_key_eq_nil {κ β : Type} [DecidableEq κ] (key : β → κ) (l : List β) (c : κ)
    (h : c ∉ l.map key) :
    l.filter (fun x => decide (key x = c)) = [] := by
  rw [List.filter_eq_nil_iff]
  intro a ha
  simp only [decide_eq_true_eq]
  intro hc
  exact h (hc ▸ List.mem_map_of_mem key ha)

theorem find?_key_eq_some_of_mem_nodup {κ β : Type} [DecidableEq κ] (key : β → κ)
    (l : List β) (s : β) (h : (l.map key).Nodup) (hs : s ∈ l) :
    l.find? (fun x => decide (key x = key s)) = some s := by
  induction l with
  | nil => cases hs
  | cons a rest ih =>
    rw [List.map_cons, List.nodup_cons] at h
    rcases List.mem_cons.mp hs with rfl | hsr
    · simp [List.find?_cons]
    · have hne : key a ≠ key s := by
        intro he
        exact h.1 (he ▸ List.mem_map_of_mem key hsr)
      rw [List.find?_cons]
      simp only [hne, decide_False]
      exact ih h.2 hsr

/-- Claim C3: an HTTP 429 response is never surfaced to the caller as a
failure; the client blocks for the Retry-After duration and retries until a
non-429 response arrives.  The code violates this: the time module is never
imported, so the 429 branch raises NameError at time.sleep, an error the
except clause does not catch.  This theorem evaluates the embedded request
loop at the failing input: the first response is a 429 with Retry-After 2 and
a 200 would be available on retry, yet the call surfaces an error; a direct
200 succeeds, showing the environment is otherwise fine. -/
theorem c3_rate_limit_raises_name_error :
    make_request_with_rate_limiting [⟨429, some 2⟩, ⟨200, none⟩] = .error .nameError ∧
    make_request_with_rate_limiting [⟨200, none⟩] = .ok ⟨200, none⟩ := ⟨rfl, rfl⟩

theorem get_all_paginated_items_succ (server : String → Option Page) (base : String)
    (fuel : Nat) (url : String) (params : List (String × String)) :
    get_all_paginated_items server base (fuel + 1) url params =
      match server url with
      | none => none
      | some pg =>
        match pg.next with
        | some l =>
          if l = "" then some (pg.items, [(url, params)])
          else
            match get_all_paginated_items server base fuel (base ++ l) [] with
            | none => none
            | some (items, reqs) => some (pg.items ++ items, (url, params) :: reqs)
        | none => some (pg.items, [(url, params)]) := rfl

/-- Claim C7: for a server returning N pages where only the last lacks a next
link, the paginated fetch terminates in exactly N requests and returns the
concatenation of all pages' item lists in page order, requesting each page's
URL as given by its predecessor's next link and sending the initial query
parameters only on the first request (later requests carry cleared
parameters). -/
theorem c7_pagination_collects_all_pages (server : String → Option Page) (base : String)
    (u0 : String) (p0 : Page) (ps : List (String × Page)) (params : List (String × String))
    (h : isChain server base ((u0, p0) :: ps)) :
    get_all_paginated_items server base (ps.length + 1) u0 params =
      some ((((u0, p0) :: ps).map (fun x => x.2.items)).flatten,
            (u0, params) :: ps.map (fun x => (x.1, []))) := by
  induction ps generalizing u0 p0 params with
  | nil =>
    obtain ⟨hs, hn⟩ := h
    simp [get_all_paginated_items, hs, hn]
  | cons q rest ih =>
    obtain ⟨hs, ⟨l, hl, hne, hu⟩, hchain⟩ := h
    have hrec := ih q.1 q.2 ([] : List (String × String)) hchain
    rw [List.length_cons, get_all_paginated_items_succ, hs]
    simp only [hl, if_neg hne]
    rw [hu] at hrec
    rw [hrec, ← hu]
    simp

/-- Witness for C7: the pagination theorem applied to a concrete two-page
server, discharging the chain hypothesis. -/
theorem c7_pagination_witness :
    get_all_paginated_items demoServer "base" 2 "base/items" [("_limit", "100")] =
      some (["a", "b", "c"],
            [("base/items", [("_limit", "100")]), ("base/next1", [])]) := by
  have h := c7_pagination_collects_all_pages demoServer "base" "base/items"
    ⟨["a", "b"], some "/next1"⟩ [("base/next1", ⟨["c"], none⟩)] [("_limit", "100")]
    ⟨rfl, ⟨"/next1", rfl, by decide, rfl⟩, rfl, rfl⟩
  simpa using h

theorem bulkStep_fst_prefix (createOk : String → Bool) (existing : List String)
    (acc : List Tenant × Nat) (t : Tenant) :
    ∃ ext, (bulkStep createOk existing acc t).1 = acc.1 ++ ext := by
  unfold bulkStep
  by_cases h1 : t.tenantId ∈ existing
  · exact ⟨[], by simp [h1]⟩
  · by_cases h2 : createOk t.tenantId
    · exact ⟨[createdTenant t], by simp [h1, h2]⟩
    · exact ⟨[], by simp [h1, h2]⟩

theorem bulk_fold_fst_prefix (createOk : String → Bool) (existing : List String)
    (src : List Tenant) (acc : List Tenant × Nat) :
    ∃ ext, (src.foldl (bulkStep createOk existing) acc).1 = acc.1 ++ ext := by
  induction src generalizing acc with
  | nil => exact ⟨[], by simp⟩
  | cons t rest ih =>
    obtain ⟨e1, h1⟩ := bulkStep_fst_prefix createOk existing acc t
    obtain ⟨e2, h2⟩ := ih (bulkStep createOk existing acc t)
    exact ⟨e1 ++ e2, by simp [List.foldl_cons, h2, h1]⟩

theorem bulk_fold_mem_ids (createOk : String → Bool) (existing : List String)
    (src : List Tenant) (acc : List Tenant × Nat) (t : Tenant) (ht : t ∈ src)
    (hok : createOk t.tenantId = true)
    (hinv : ∀ k, k ∈ existing → k ∈ acc.1.map (fun x => x.tenantId)) :
    t.tenantId ∈ (src.foldl (bulkStep createOk existing) acc).1.map (fun x => x.tenantId) := by
  induction src generalizing acc with
  | nil => cases ht
  | cons a rest ih =>
    rw [List.foldl_cons]
    rcases List.mem_cons.mp ht with rfl | htr
    · -- the head is t itself: after its step, its id is in the accumulator;
      -- the rest of the fold only appends
      have hmem : t.tenantId ∈ (bulkStep createOk existing acc t).1.map (fun x => x.tenantId) := by
        unfold bulkStep
        by_cases h1 : t.tenantId ∈ existing
        · simpa [h1] using hinv t.tenantId h1
        · simp [h1, hok, createdTenant]
      obtain ⟨ext, hext⟩ := bulk_fold_fst_prefix createOk existing rest
        (bulkStep createOk existing acc t)
      rw [hext]
      simp only [List.map_append, List.mem_append]
      exact Or.inl hmem
    · refine ih (bulkStep createOk existing acc a) htr ?_
      intro k hk
      obtain ⟨e1, h1⟩ := bulkStep_fst_prefix createOk existing acc a
      rw [h1]
      simp only [List.map_append, List.mem_append]
      exact Or.inl (hinv k hk)

theorem bulk_fold_all_skipped (createOk : String → Bool) (existing : List String)
    (src : List Tenant) (acc : List Tenant × Nat)
    (h : ∀ t ∈ src, t.tenantId ∈ existing) :
    src.foldl (bulkStep createOk existing) acc = acc := by
  induction src generalizing acc with
  | nil => rfl
  | cons a rest ih =>
    rw [List.foldl_cons]
    have ha : a.tenantId ∈ existing := h a (List.mem_cons_self a rest)
    have : bulkStep createOk existing acc a = acc := by simp [bulkStep, ha]
    rw [this]
    exact ih acc (fun t ht => h t (List.mem_cons_of_mem a ht))

theorem create_categories_count (destState : List Category) (src : List Category) :
    (create_categories destState src).2 = src.length := by
  unfold create_categories
  suffices h : ∀ (l : List Category) (acc : List Category × Nat),
      (l.foldl (fun acc c =>
        (acc.1 ++ [⟨"", c.name, some (c.description.getD "")⟩], acc.2 + 1)) acc).2 =
      acc.2 + l.length by
    simpa using h src (destState, 0)
  intro l
  induction l with
  | nil => intro acc; simp
  | cons c rest ih =>
    intro acc
    rw [List.foldl_cons, ih]
    simp
    omega

/-- Claim C2 counterexample: the claim states that the create-if-absent stage
is idempotent for categories as well; but create_categories performs no
existence check, so running it a second time against the destination state
produced by the first run issues another create call for the single source
category (one call, not zero). -/
theorem c2_reconcile_counterexample :
    ¬ ((create_categories
          (create_categories [] [⟨"c1", "Billing", none⟩]).1
          [⟨"c1", "Billing", none⟩]).2 = 0) := by decide

/-- Claim C2 (amended): reconciliation is idempotent for tenants: for any
source snapshot and destination state, if the first run's create calls all
succeed, running bulk_create_tenants again on the destination state produced
by the first run issues zero create calls and leaves the collection
unchanged.  For categories there is no existence check: every run issues one
create call per source category, so a second run repeats all of them (and
likewise the permission stage posts its payload unconditionally). -/
theorem c2_reconcile_amended (createOk : String → Bool) (dest : List Tenant)
    (src : List Tenant) (catsDest : List Category) (cats : List Category)
    (h : ∀ t ∈ src, createOk t.tenantId = true) :
    bulk_create_tenants createOk (bulk_create_tenants createOk dest src).1 src =
      ((bulk_create_tenants createOk dest src).1, 0) ∧
    (create_categories catsDest cats).2 = cats.length := by
  constructor
  · unfold bulk_create_tenants
    apply bulk_fold_all_skipped
    intro t ht
    exact bulk_fold_mem_ids createOk (dest.map (fun x => x.tenantId)) src (dest, 0) t ht
      (h t ht) (fun k hk => hk)
  · exact create_categories_count catsDest cats

/-- Witness for the amended C2: a concrete one-tenant source against an empty
destination; the second run performs zero creates and preserves the state,
and the category stage's call count equals the source size on every run. -/
theorem c2_reconcile_amended_witness :
    bulk_create_tenants (fun _ => true)
        (bulk_create_tenants (fun _ => true) [] [⟨"t1", "Acme", none⟩]).1
        [⟨"t1", "Acme", none⟩] =
      ((bulk_create_tenants (fun _ => true) [] [⟨"t1", "Acme", none⟩]).1, 0) ∧
    (create_categories [] [⟨"c1", "Billing", none⟩]).2 = 1 :=
  c2_reconcile_amended (fun _ => true) [] [⟨"t1", "Acme", none⟩] [] [⟨"c1", "Billing", none⟩]
    (by decide)

theorem pyDictGet_keyed {β α : Type} (key : β → String) (f : β → α) (l : List β) (c : String)
    (h : (l.map key).Nodup) :
    pyDictGet (l.map (fun s => (key s, f s))) c =
      (l.find? (fun s => decide (key s = c))).map f := by
  induction l with
  | nil => rfl
  | cons a rest ih =>
    rw [List.map_cons, List.nodup_cons] at h
    unfold pyDictGet
    rw [List.map_cons, List.filter_cons]
    by_cases hc : key a = c
    · have hnil : (rest.map (fun s => (key s, f s))).filter
          (fun p => decide (p.1 = c)) = [] := by
        have := filter_key_eq_nil (fun p : String × α => p.1) (rest.map (fun s => (key s, f s))) c
          (by
            simp only [List.map_map]
            intro hmem
            apply h.1
            rw [← hc] at hmem
            simpa using hmem)
        simpa using this
      simp [hc, hnil, List.find?_cons]
    · have hrec := ih h.2
      unfold pyDictGet at hrec
      have hpa : (decide (((key a, f a) : String × α).1 = c)) = false := by simp [hc]
      rw [if_neg (by simp [hc])]
      rw [List.find?_cons]
      have hka : (decide (key a = c)) = false := by simp [hc]
      rw [hka]
      exact hrec

/-- Claim C6: during permission migration, a permission entry is in the
create payload exactly when its source categoryId is the id of a source
category whose name matches some destination category (the first such, with
a usable id); the entry then carries that destination category's id.  In
particular a permission whose source categoryId has no destination
counterpart is excluded from the create call rather than created with a
null category reference.  Source category ids are assumed unique (the dict
comprehension silently overwrites duplicates). -/
theorem c6_permission_category_translation (srcCats destCats : List Category)
    (perms : List Permission) (h : (srcCats.map Category.id).Nodup) (e : PermEntry) :
    e ∈ migrate_settings_payload srcCats destCats perms ↔
      ∃ p ∈ perms, ∃ s ∈ srcCats, ∃ d : Category,
        p.categoryId = some s.id ∧
        destCats.find? (fun dc => decide (dc.name = s.name)) = some d ∧
        d.id ≠ "" ∧ e = mkPermEntry p d.id := by
  unfold migrate_settings_payload create_permissions_payload
  rw [List.mem_filterMap]
  constructor
  · rintro ⟨q, hq, hfq⟩
    rw [List.mem_map] at hq
    obtain ⟨p, hp, rfl⟩ := hq
    cases hpc : p.categoryId with
    | none =>
      exfalso
      unfold rewriteCategoryId at hfq
      rw [hpc] at hfq
      simp at hfq
    | some c =>
      unfold rewriteCategoryId at hfq
      rw [hpc] at hfq
      simp only at hfq
      cases hj : (pyDictGet (category_mapping srcCats destCats) c).join with
      | none => rw [hj] at hfq; simp at hfq
      | some cid =>
        rw [hj] at hfq
        simp only at hfq
        by_cases hcid : cid = ""
        · rw [if_pos hcid] at hfq; cases hfq
        · rw [if_neg hcid] at hfq
          have he : e = mkPermEntry p cid := by
            have := Option.some.inj hfq
            exact this.symm
          rw [Option.join_eq_some] at hj
          unfold category_mapping at hj
          rw [pyDictGet_keyed Category.id
            (fun s => (destCats.find? (fun d => decide (d.name = s.name))).map
              (fun d => d.id)) srcCats c h] at hj
          rw [Option.map_eq_some'] at hj
          obtain ⟨s, hfs, hval⟩ := hj
          have hsmem := List.mem_of_find?_eq_some hfs
          have hsid : s.id = c := by
            have := List.find?_some hfs
            simpa using this
          rw [Option.map_eq_some'] at hval
          obtain ⟨d, hfd, hdid⟩ := hval
          exact ⟨p, hp, s, hsmem, d, by rw [hpc, hsid], hfd, by rw [hdid]; exact hcid,
            by rw [he, hdid]⟩
  · rintro ⟨p, hp, s, hs, d, hpc, hfd, hdne, rfl⟩
    refine ⟨rewriteCategoryId (category_mapping srcCats destCats) p,
      List.mem_map_of_mem _ hp, ?_⟩
    have hsid : (rewriteCategoryId (category_mapping srcCats destCats) p).categoryId =
        some d.id := by
      unfold rewriteCategoryId
      rw [hpc]
      simp only
      unfold category_mapping
      rw [pyDictGet_keyed Category.id
        (fun s => (destCats.find? (fun dc => decide (dc.name = s.name))).map
          (fun dc => dc.id)) srcCats s.id h]
      have : srcCats.find? (fun x => decide (x.id = s.id)) = some s :=
        find?_key_eq_some_of_mem_nodup Category.id srcCats s h hs
      rw [this]
      simp [hfd]
    rw [hsid]
    simp only [if_neg hdne]
    rfl

theorem find?_eq_head_filter {β : Type} (p : β → Bool) (l : List β) :
    l.find? p = (l.filter p).head? := by
  induction l with
  | nil => rfl
  | cons a rest ih =>
    rw [List.find?_cons, List.filter_cons]
    cases hpa : p a with
    | true => simp [hpa]
    | false =>
      simp only [hpa, Bool.false_eq_true, if_false]
      exact ih

theorem filter_key_length_le_one {κ β : Type} [DecidableEq κ] (key : β → κ) (l : List β)
    (k : κ) (h : (l.map key).Nodup) :
    (l.filter (fun x => decide (key x = k))).length ≤ 1 := by
  induction l with
  | nil => simp
  | cons a rest ih =>
    rw [List.map_cons, List.nodup_cons] at h
    rw [List.filter_cons]
    by_cases hk : key a = k
    · have : rest.filter (fun x => decide (key x = k)) = [] :=
        filter_key_eq_nil key rest k (by rw [← hk]; exact h.1)
      simp [hk, this]
    · simpa [hk] using ih h.2

theorem flatMap_singleton_map {β γ : Type} (f : β → γ) (l : List β) :
    l.flatMap (fun x => [f x]) = l.map f := by
  induction l with
  | nil => rfl
  | cons a rest ih => simp [ih]

/-- Witness for C6: the spec's example scenario; category Billing exists at
the source with id c1 and at the destination with id c2; a permission with
source categoryId c1 appears in the create payload carrying categoryId c2. -/
theorem c6_permission_category_witness :
    (⟨"Read", "", "c2", "perm.read", "Admin"⟩ : PermEntry) ∈
      migrate_settings_payload [⟨"c1", "Billing", none⟩] [⟨"c2", "Billing", none⟩]
        [⟨"perm.read", "Read", none, some "c1", none⟩] :=
  (c6_permission_category_translation [⟨"c1", "Billing", none⟩] [⟨"c2", "Billing", none⟩]
      [⟨"perm.read", "Read", none, some "c1", none⟩] (by decide) _).mpr
    ⟨⟨"perm.read", "Read", none, some "c1", none⟩, by decide, ⟨"c1", "Billing", none⟩,
      by decide, ⟨"c2", "Billing", none⟩, rfl, by decide, by decide, rfl⟩

theorem mergeRowsFor_eq_single (d : List User) (u : User)
    (h : (d.map (fun v => (v.email, v.tenantId))).Nodup) :
    mergeRowsFor d u =
      [⟨u.email, u.tenantId, u.id,
        (d.find? (fun v => decide ((v.email, v.tenantId) = (u.email, u.tenantId)))).map
          (fun v => v.id)⟩] := by
  unfold mergeRowsFor
  rw [find?_eq_head_filter]
  have hlen := filter_key_length_le_one (fun v : User => (v.email, v.tenantId)) d
    (u.email, u.tenantId) h
  rcases hf : d.filter (fun v => decide ((v.email, v.tenantId) = (u.email, u.tenantId))) with
    _ | ⟨v, _ | ⟨v2, tail2⟩⟩
  · rw [hf]
    simp
  · rw [hf]
    simp
  · rw [hf] at hlen
    simp at hlen

theorem merge_users_nodup_keys (dst : List User)
    (h : (dst.map (fun v => (lowerString v.email, v.tenantId))).Nodup) :
    ((dst.map lowerUser).map (fun v => (v.email, v.tenantId))).Nodup := by
  rw [List.map_map]
  exact h

/-- Claim C4 (amended): provided the destination users have pairwise distinct
(lowercased email, tenantId) pairs, the merged user table is exactly one row
per source user in source order — the row described by the spec: it carries a
destination user id if and only if some destination user matches on
(lowercased email, tenantId), and when a destination user matches, the row's
destination id is that user's id.  Without the distinctness assumption a
source user matched by several destination users is duplicated by the left
merge (see the counterexample). -/
theorem c4_user_join_amended (src dst : List User)
    (h : (dst.map (fun v => (lowerString v.email, v.tenantId))).Nodup) :
    merge_users src dst = src.map (mergeSpecRow dst) ∧
    ∀ u ∈ src,
      ((mergeSpecRow dst u).idDest.isSome ↔
        ∃ v ∈ dst, lowerString v.email = lowerString u.email ∧ v.tenantId = u.tenantId) ∧
      (∀ v ∈ dst, lowerString v.email = lowerString u.email → v.tenantId = u.tenantId →
        (mergeSpecRow dst u).idDest = some v.id) := by
  have hd := merge_users_nodup_keys dst h
  constructor
  · unfold merge_users
    induction src with
    | nil => rfl
    | cons u rest ih =>
      rw [List.map_cons, List.flatMap_cons, List.map_cons, ih]
      rw [mergeRowsFor_eq_single (dst.map lowerUser) (lowerUser u) hd]
      rfl
  · intro u hu
    have hmap : ∀ (o : Option User), (Option.map (fun x => x.id) o).isSome = o.isSome :=
      fun o => by cases o <;> rfl
    constructor
    · unfold mergeSpecRow
      simp only
      rw [hmap, List.find?_isSome]
      constructor
      · rintro ⟨x, hx, hpx⟩
        rw [List.mem_map] at hx
        obtain ⟨v, hv, rfl⟩ := hx
        simp only [decide_eq_true_eq, lowerUser, Prod.mk.injEq] at hpx
        exact ⟨v, hv, hpx.1, hpx.2⟩
      · rintro ⟨v, hv, he, ht⟩
        exact ⟨lowerUser v, List.mem_map_of_mem lowerUser hv,
          by simp [lowerUser, he, ht]⟩
    · intro v hv he ht
      unfold mergeSpecRow
      simp only
      have hkey : ((lowerUser v).email, (lowerUser v).tenantId) =
          ((lowerUser u).email, (lowerUser u).tenantId) := by
        simp [lowerUser, he, ht]
      have hfind : (dst.map lowerUser).find?
          (fun x => decide ((x.email, x.tenantId) =
            ((lowerUser v).email, (lowerUser v).tenantId))) = some (lowerUser v) :=
        find?_key_eq_some_of_mem_nodup (fun x : User => (x.email, x.tenantId))
          (dst.map lowerUser) (lowerUser v) hd (List.mem_map_of_mem lowerUser hv)
      rw [← hkey, hfind]
      rfl

/-- Claim C4 counterexample: with two destination users sharing the same
(lowercased email, tenantId) pair, the left merge emits two rows for the one
source user, so a source user does not appear exactly once in the joined
set. -/
theorem c4_user_join_counterexample :
    ((merge_users [⟨"s1", "a@x.com", "t1"⟩]
        [⟨"d1", "a@x.com", "t1"⟩, ⟨"d2", "a@x.com", "t1"⟩]).filter
      (fun r => decide (r.idSource = "s1"))).length = 2 ∧
    ¬ ((merge_users [⟨"s1", "a@x.com", "t1"⟩]
        [⟨"d1", "a@x.com", "t1"⟩, ⟨"d2", "a@x.com", "t1"⟩]).filter
      (fun r => decide (r.idSource = "s1"))).length = 1 := by decide

/-- Witness for the amended C4: a two-user source against a one-user
destination with distinct keys; the merge yields exactly the two spec rows,
the matched user carrying the destination id and the unmatched one an absent
id. -/
theorem c4_user_join_witness :
    merge_users [⟨"s1", "A@x.com", "t1"⟩, ⟨"s2", "b@y.com", "t1"⟩]
        [⟨"d1", "a@x.com", "t1"⟩] =
      [⟨"a@x.com", "t1", "s1", some "d1"⟩, ⟨"b@y.com", "t1", "s2", none⟩] := by
  rw [(c4_user_join_amended [⟨"s1", "A@x.com", "t1"⟩, ⟨"s2", "b@y.com", "t1"⟩]
    [⟨"d1", "a@x.com", "t1"⟩] (by decide)).1]
  decide

/-- Claim C1: the claim states that an assignment request is issued only for
rows with a present destination id and a non-empty translated role set, and
that no request is ever sent with a missing destination user id.  The code
violates this: the only row filter is roleIds.notnull(), which always holds,
so a source user with no destination match (destination id NaN) still
produces a POST (to a URL containing the literal nan).  This theorem
evaluates the pipeline at such an input: one source user with a role record
and no destination counterpart yields exactly one emitted request, and that
request's destination user id is absent. -/
theorem c1_assignment_sent_with_missing_dest :
    compute_assignments [⟨"s1", "A@x.com", "t1"⟩] [] [⟨"s1", ["r1"]⟩] [("r1", "d1")] =
      [⟨none, "t1", "a@x.com", ["d1"]⟩] := by decide

theorem translate_role_ids_fst (m : List (String × String)) (ids : List String) :
    (translate_role_ids m ids).1 = ids.filterMap (fun x =>
      match pyDictGet m x with
      | some v => if v = "" then none else some v
      | none => none) := by
  induction ids with
  | nil => rfl
  | cons i rest ih =>
    rw [List.filterMap_cons]
    cases hg : pyDictGet m i with
    | none => simpa [translate_role_ids, hg] using ih
    | some v =>
      by_cases hv : v = ""
      · simpa [translate_role_ids, hg, hv] using ih
      · simpa [translate_role_ids, hg, hv] using ih

theorem translate_role_ids_diag (m : List (String × String)) (ids : List String) :
    ∀ x ∈ ids, pyDictGet m x = none → x ∈ (translate_role_ids m ids).2 := by
  induction ids with
  | nil => intro x hx; cases hx
  | cons i rest ih =>
    intro x hx hnone
    rcases List.mem_cons.mp hx with rfl | hxr
    · cases hg : pyDictGet m x with
      | none => simp [translate_role_ids, hg]
      | some v => rw [hg] at hnone; cases hnone
    · have hr := ih x hxr hnone
      cases hg : pyDictGet m i with
      | none => simp [translate_role_ids, hg, hr]
      | some v =>
        by_cases hv : v = ""
        · simp [translate_role_ids, hg, hv, hr]
        · simp [translate_role_ids, hg, hv, hr]

/-- Claim C5 (amended): role-id translation is total (the embedding is a
total function) and lossy-only: the output length is at most the input
length; every output id is a value of the map; an input id absent from the
map contributes no element of its own to the output and a diagnostic is
recorded for it; and the output is exactly the in-order image of those input
ids that are present in the map with a truthy (non-empty) value — so order
is preserved.  An id absent from the map may nevertheless occur in the
output as the translation of a different input id, which is what the
original claim's wording excludes (see the counterexample). -/
theorem c5_translate_amended (m : List (String × String)) (ids : List String) :
    (translate_role_ids m ids).1.length ≤ ids.length ∧
    (∀ y ∈ (translate_role_ids m ids).1, ∃ x, pyDictGet m x = some y) ∧
    (∀ x ∈ ids, pyDictGet m x = none → x ∈ (translate_role_ids m ids).2) ∧
    (translate_role_ids m ids).1 = ids.filterMap (fun x =>
      match pyDictGet m x with
      | some v => if v = "" then none else some v
      | none => none) := by
  refine ⟨?_, ?_, translate_role_ids_diag m ids, translate_role_ids_fst m ids⟩
  · rw [translate_role_ids_fst]
    exact List.length_filterMap_le _ _
  · intro y hy
    rw [translate_role_ids_fst, List.mem_filterMap] at hy
    obtain ⟨x, _, hfx⟩ := hy
    cases hg : pyDictGet m x with
    | none => rw [hg] at hfx; cases hfx
    | some v =>
      rw [hg] at hfx
      by_cases hv : v = ""
      · simp [hv] at hfx
      · simp only [hv, if_neg, if_false] at hfx
        rw [Option.some.inj hfx] at hg
        exact ⟨x, hg⟩

/-- Claim C5 counterexample: with the map sending a to b and the input
list containing both a and b, the input id b is absent from the map (a
diagnostic is recorded for it) yet b appears in the output, as the
translation of a — refuting that an input id absent from the map is absent
from the output. -/
theorem c5_translate_counterexample :
    pyDictGet [("a", "b")] "b" = none ∧
    "b" ∈ ["a", "b"] ∧
    "b" ∈ (translate_role_ids [("a", "b")] ["a", "b"]).1 ∧
    "b" ∈ (translate_role_ids [("a", "b")] ["a", "b"]).2 := by decide

/-- Witness for the amended C5: the spec's example (r1 maps to d9, r2 has no
destination counterpart): the output is no longer than the input and r2 is
diagnosed. -/
theorem c5_translate_witness :
    (translate_role_ids [("r1", "d9")] ["r1", "r2"]).1.length ≤ 2 ∧
    "r2" ∈ (translate_role_ids [("r1", "d9")] ["r1", "r2"]).2 :=
  ⟨(c5_translate_amended [("r1", "d9")] ["r1", "r2"]).1,
   (c5_translate_amended [("r1", "d9")] ["r1", "r2"]).2.2.1 "r2" (by decide) (by decide)⟩

theorem translations_fold_empty_dst (items : List (String × String))
    (acc : List (String × String) × List String) :
    (items.foldl (fun acc kp =>
      match pyDictGet ([] : List (String × String)) kp.1 with
      | some d => if d = "" then (acc.1, acc.2 ++ [kp.1]) else (acc.1 ++ [(kp.2, d)], acc.2)
      | none => (acc.1, acc.2 ++ [kp.1])) acc).1 = acc.1 := by
  induction items generalizing acc with
  | nil => rfl
  | cons kp rest ih => exact ih (acc.1, acc.2 ++ [kp.1])

theorem translate_role_ids_empty_map (ids : List String) :
    translate_role_ids [] ids = ([], ids) := by
  induction ids with
  | nil => rfl
  | cons i rest ih => simp [translate_role_ids, ih, pyDictGet]

/-- Claim C10: a failed full-collection fetch of roles, categories or
permissions is caught inside the fetch function, which returns an empty
mapping or empty list instead of propagating; in particular a failed
destination roles fetch yields an empty role translation map, the empty map
translates every role id list to the empty list (each id diagnosed), and
every assignment request the user stage then emits carries an empty role id
set — every role id of every user is silently dropped. -/
theorem c10_failed_fetch_empty (e : Err) (srcResp : Except Err (List Role)) :
    get_roles_mapping (.error e) = [] ∧
    get_categories (.error e) = [] ∧
    get_permissions (.error e) = [] ∧
    (get_role_id_translations srcResp (.error e)).1 = [] ∧
    (∀ ids : List String, translate_role_ids [] ids = ([], ids)) ∧
    (∀ (srcUsers dstUsers : List User) (records : List RoleRecord) (req : AssignRequest),
      req ∈ compute_assignments srcUsers dstUsers records [] → req.roleIds = []) := by
  refine ⟨rfl, rfl, rfl, ?_, translate_role_ids_empty_map, ?_⟩
  · unfold get_role_id_translations
    exact translations_fold_empty_dst _ _
  · intro srcUsers dstUsers records req hreq
    unfold compute_assignments at hreq
    rw [List.mem_flatMap] at hreq
    obtain ⟨m, _, hm⟩ := hreq
    rw [List.mem_map] at hm
    obtain ⟨r, hr, rfl⟩ := hm
    rw [List.mem_filter] at hr
    obtain ⟨hr1, _⟩ := hr
    rw [List.mem_map] at hr1
    obtain ⟨r0, _, rfl⟩ := hr1
    show (translateRecord [] r0).roleIds = []
    unfold translateRecord
    simp [translate_role_ids_empty_map]

/-- Witness for C10: concrete instantiation — a destination roles fetch that
fails with a remote error yields an empty translation map, and the one
request the user stage emits for a matched user with one role carries an
empty role id set. -/
theorem c10_failed_fetch_witness :
    (get_role_id_translations (Except.ok [⟨"r1", "admin"⟩])
      (Except.error (Err.remote 500 "boom"))).1 = [] ∧
    (⟨some "d1", "t1", "a@x.com", []⟩ : AssignRequest).roleIds = [] := by
  constructor
  · exact
      (c10_failed_fetch_empty (Err.remote 500 "boom") (Except.ok [⟨"r1", "admin"⟩])).2.2.2.1
  · exact
      (c10_failed_fetch_empty (Err.remote 500 "boom") (Except.ok [⟨"r1", "admin"⟩])).2.2.2.2.2
        [⟨"s1", "a@x.com", "t1"⟩] [⟨"d1", "a@x.com", "t1"⟩] [⟨"s1", ["r1"]⟩]
        ⟨some "d1", "t1", "a@x.com", []⟩ (by decide)

theorem getLast?_mem {α : Type} : ∀ (l : List α) (a : α), l.getLast? = some a → a ∈ l
  | [], a, h => by cases h
  | [b], a, h => by
    rw [List.getLast?_singleton] at h
    exact List.mem_singleton.mpr (Option.some.inj h).symm
  | b :: c :: rest, a, h => by
    rw [List.getLast?_cons_cons] at h
    exact List.mem_cons_of_mem b (getLast?_mem (c :: rest) a h)

theorem sorted_getLast?_max :
    ∀ (l : List HashRow), List.Sorted hashLe l → ∀ r, l.getLast? = some r →
      ∀ x ∈ l, hashLe x r := by
  intro l
  induction l with
  | nil => intro _ r hr; cases hr
  | cons a rest ih =>
    intro hs r hr x hx
    rw [List.sorted_cons] at hs
    cases rest with
    | nil =>
      rw [List.getLast?_singleton] at hr
      rcases List.mem_singleton.mp hx with rfl
      rw [← Option.some.inj hr]
      exact Nat.le_refl _
    | cons b t =>
      rw [List.getLast?_cons_cons] at hr
      rcases List.mem_cons.mp hx with rfl | hxr
      · exact hs.1 r (getLast?_mem (b :: t) r hr)
      · exact ih hs.2 r hr x hxr

theorem latest_hash_spec (hashes : List HashRow) (u : String) (r : HashRow)
    (h : latest_hash hashes u = some r) :
    r ∈ hashes ∧ r.userId = u ∧
      ∀ x ∈ hashes, x.userId = u → x.createdAt ≤ r.createdAt := by
  unfold latest_hash at h
  have hperm := List.perm_insertionSort hashLe hashes
  have hrf := getLast?_mem _ r h
  rw [List.mem_filter] at hrf
  have hsorted : List.Sorted hashLe
      ((List.insertionSort hashLe hashes).filter (fun x => decide (x.userId = u))) :=
    List.Pairwise.filter _ (List.sorted_insertionSort hashLe hashes)
  refine ⟨hperm.mem_iff.mp hrf.1, by simpa using hrf.2, ?_⟩
  intro x hx hxu
  have hxf : x ∈ (List.insertionSort hashLe hashes).filter (fun x => decide (x.userId = u)) := by
    rw [List.mem_filter]
    exact ⟨hperm.mem_iff.mpr hx, by simpa using hxu⟩
  exact sorted_getLast?_max _ hsorted r h x hxf

theorem latest_hash_none (hashes : List HashRow) (u : String)
    (h : ∀ x ∈ hashes, x.userId ≠ u) :
    latest_hash hashes u = none := by
  unfold latest_hash
  have hperm := List.perm_insertionSort hashLe hashes
  have : (List.insertionSort hashLe hashes).filter (fun x => decide (x.userId = u)) = [] := by
    rw [List.filter_eq_nil_iff]
    intro x hx
    simpa using h x (hperm.mem_iff.mp hx)
  rw [this]
  rfl

theorem latest_hash_unique_max (hashes : List HashRow) (u : String) (rstar : HashRow)
    (hmem : rstar ∈ hashes) (hu : rstar.userId = u)
    (hmax : ∀ x ∈ hashes, x.userId = u → x ≠ rstar → x.createdAt < rstar.createdAt) :
    latest_hash hashes u = some rstar := by
  have hperm := List.perm_insertionSort hashLe hashes
  have hne : ((List.insertionSort hashLe hashes).filter
      (fun x => decide (x.userId = u))) ≠ [] := by
    intro hnil
    have : rstar ∈ (List.insertionSort hashLe hashes).filter
        (fun x => decide (x.userId = u)) := by
      rw [List.mem_filter]
      exact ⟨hperm.mem_iff.mpr hmem, by simpa using hu⟩
    rw [hnil] at this
    cases this
  have hsome : ((List.insertionSort hashLe hashes).filter
      (fun x => decide (x.userId = u))).getLast?.isSome = true :=
    List.getLast?_isSome.mpr hne
  obtain ⟨r, hr0⟩ := Option.isSome_iff_exists.mp hsome
  have hr : latest_hash hashes u = some r := hr0
  have hspec := latest_hash_spec hashes u r hr
  by_cases heq : r = rstar
  · rw [heq] at hr
    exact hr
  · exfalso
    have h1 : r.createdAt < rstar.createdAt :=
      hmax r hspec.1 hspec.2.1 heq
    have h2 : rstar.createdAt ≤ r.createdAt :=
      hspec.2.2 rstar hmem hu
    omega

/-- Claim C8: in the CSV credential merge, whenever a hash row is selected
for a user id it is one of that user's rows with the maximum creation
timestamp; when a user's timestamps have a unique maximum (in particular for
strictly increasing t1 < t2 < t3, in any input order, since the hash list is
universally quantified) the row at the maximum is selected; a user id with
no hash rows gets no selection; and the output has exactly one row per user
row, carrying that user's selected hash, or an absent password hash when
there is none. -/
theorem c8_credential_merge (users : List UserRow) (hashes : List HashRow) :
    (create_migration_csv users hashes).length = users.length ∧
    (∀ u r, latest_hash hashes u = some r →
      r ∈ hashes ∧ r.userId = u ∧ ∀ x ∈ hashes, x.userId = u → x.createdAt ≤ r.createdAt) ∧
    (∀ u, (∀ x ∈ hashes, x.userId ≠ u) → latest_hash hashes u = none) ∧
    (∀ u rstar, rstar ∈ hashes → rstar.userId = u →
      (∀ x ∈ hashes, x.userId = u → x ≠ rstar → x.createdAt < rstar.createdAt) →
      latest_hash hashes u = some rstar) ∧
    (∀ ur ∈ users,
      (⟨ur.userId, ur.email, (latest_hash hashes ur.userId).map (fun r => r.hash)⟩ : OutRow) ∈
        create_migration_csv users hashes) := by
  refine ⟨List.length_map users _, latest_hash_spec hashes, latest_hash_none hashes,
    latest_hash_unique_max hashes, ?_⟩
  intro ur hur
  exact List.mem_map_of_mem _ hur

/-- Witness for C8: a user with hash rows at timestamps 1 < 2 < 3 presented
in scrambled input order gets the hash at timestamp 3, and a user with no
hash rows appears in the output with an absent password hash. -/
theorem c8_credential_merge_witness :
    latest_hash [⟨"u1", 2, "H2"⟩, ⟨"u1", 3, "H3"⟩, ⟨"u1", 1, "H1"⟩] "u1" =
      some ⟨"u1", 3, "H3"⟩ ∧
    (⟨"u2", "b@y.com", none⟩ : OutRow) ∈
      create_migration_csv [⟨"u1", "a@x.com"⟩, ⟨"u2", "b@y.com"⟩]
        [⟨"u1", 2, "H2"⟩, ⟨"u1", 3, "H3"⟩, ⟨"u1", 1, "H1"⟩] := by
  have hthm := c8_credential_merge [⟨"u1", "a@x.com"⟩, ⟨"u2", "b@y.com"⟩]
    [⟨"u1", 2, "H2"⟩, ⟨"u1", 3, "H3"⟩, ⟨"u1", 1, "H1"⟩]
  constructor
  · exact hthm.2.2.2.1 "u1" ⟨"u1", 3, "H3"⟩ (by decide) (by decide) (by decide)
  · have hnone := hthm.2.2.1 "u2" (by decide)
    have := hthm.2.2.2.2 ⟨"u2", "b@y.com"⟩ (by decide)
    rw [hnone] at this
    exact this

/-- Claim C9: the orchestrator runs the stages in the fixed order Tenants,
CSV credential merge, Categories, Permissions, Users and Roles; the executed
trace is always a prefix of that order; an okay run executes exactly the full
order; a stage-level unhandled error (a failed mandatory fetch or file read)
stops the run at that stage, so no later stage executes — illustrated for a
source-tenant fetch failure and a CSV read failure; and when every mandatory
fetch succeeds the run completes all five stages regardless of per-item
create outcomes (per-item failures are caught inside their stage and abort
nothing). -/
theorem c9_stage_order (env : MigEnv) :
    ((migrate env).1 <+: stageOrder) ∧
    ((migrate env).2 = .ok () → (migrate env).1 = stageOrder) ∧
    (∀ e, env.srcTenants = .error e → migrate env = ([Stage.tenants], .error e)) ∧
    (∀ e, exOk env.srcTenants → exOk env.dstTenants → env.csvData = .error e →
      migrate env = ([Stage.tenants, Stage.csv], .error e)) ∧
    (exOk env.srcTenants → exOk env.dstTenants → exOk env.csvData →
      exOk env.srcUsers → exOk env.dstUsers →
      (migrate env).2 = .ok () ∧ (migrate env).1 = stageOrder) := by
  obtain ⟨st, dt, tok, cd, sc, dc, sp, su, du, rr, sr, dr⟩ := env
  refine ⟨?_, ?_, ?_, ?_, ?_⟩
  · rcases st with e1 | s1
    · exact ⟨_, rfl⟩
    · rcases dt with e2 | d2
      · exact ⟨_, rfl⟩
      · rcases cd with e3 | d3
        · exact ⟨_, rfl⟩
        · rcases su with e4 | s4
          · exact ⟨_, rfl⟩
          · rcases du with e5 | d5
            · exact ⟨_, rfl⟩
            · exact ⟨_, rfl⟩
  · intro hok
    rcases st with e1 | s1
    · exact absurd hok (by simp [migrate, runSeq, stageActions, migrate_tenants_run, toUnit])
    · rcases dt with e2 | d2
      · exact absurd hok (by simp [migrate, runSeq, stageActions, migrate_tenants_run, toUnit])
      · rcases cd with e3 | d3
        · exact absurd hok
            (by simp [migrate, runSeq, stageActions, migrate_tenants_run, csv_stage_run, toUnit])
        · rcases su with e4 | s4
          · exact absurd hok
              (by simp [migrate, runSeq, stageActions, migrate_tenants_run, csv_stage_run,
                categories_stage_run, permissions_stage_run, users_roles_stage_run, toUnit])
          · rcases du with e5 | d5
            · exact absurd hok
                (by simp [migrate, runSeq, stageActions, migrate_tenants_run, csv_stage_run,
                  categories_stage_run, permissions_stage_run, users_roles_stage_run, toUnit])
            · rfl
  · intro e he
    cases he
    rfl
  · rintro e ⟨s1, hs1⟩ ⟨d2, hd2⟩ hcd
    cases hs1
    cases hd2
    cases hcd
    rfl
  · rintro ⟨s1, hs1⟩ ⟨d2, hd2⟩ ⟨d3, hd3⟩ ⟨s4, hs4⟩ ⟨d5, hd5⟩
    cases hs1
    cases hd2
    cases hd3
    cases hs4
    cases hd5
    exact ⟨rfl, rfl⟩

/-- Witness for C9: in the concrete environment all hypotheses discharge and
the run executes all five stages in order and succeeds, although every
per-item tenant create failed. -/
theorem c9_stage_order_witness :
    (migrate happyEnv).2 = .ok () ∧ (migrate happyEnv).1 = stageOrder :=
  (c9_stage_order happyEnv).2.2.2.2 ⟨_, rfl⟩ ⟨_, rfl⟩ ⟨_, rfl⟩ ⟨_, rfl⟩ ⟨_, rfl⟩
